import Mathlib

/-
Verification of the response-materialization pipeline of `mistral_ocr.py`.

The embedding below translates the pure computational content of
`process_ocr_response` (lines 12-97) and the post-OCR tail of
`process_pdf_with_ocr` / `process_image_with_ocr` (response normalization,
lines 147-166 / 236-249, and artifact persistence, lines 168-186) into Lean.

Python strings are modelled as Lean `String` (a wrapper around `List Char`),
bytes as `List Nat`, and the filesystem as an explicit state value.  Calls to
the Python standard library (`str.replace`, `str.strip`, `base64.b64decode`,
`os.path.join`, `os.path.basename`, decimal rendering of integers) are
translated into executable Lean functions with the same observable behaviour
on the inputs the program can produce.  Filesystem writes that the program
performs are collected in program order and applied to the filesystem state;
fault injection for the two artifact writes (which the surrounding
`try/except` turns into a `False` return) is modelled by an explicit list of
paths whose write raises.
-/

namespace MistralOcr

/-! ## Python standard-library models: strings -/

/-- Decimal digit character for a value below ten (the shape produced by
Python `str(int)` / f-string interpolation of an `int`). -/
def decDigit (d : Nat) : Char :=
  match d with
  | 0 => '0' | 1 => '1' | 2 => '2' | 3 => '3' | 4 => '4'
  | 5 => '5' | 6 => '6' | 7 => '7' | 8 => '8' | 9 => '9'
  | _ => '*'

/-- Fuel-driven digit accumulator; for `n < f` the fuel never runs out. -/
def digitsGo (f n : Nat) : List Char :=
  match f with
  | 0 => []
  | f + 1 => if n < 10 then [decDigit n] else digitsGo f (n / 10) ++ [decDigit (n % 10)]

/-- Decimal digit list (most significant first) of a natural number, as
produced by Python f-string interpolation of a nonnegative `int`. -/
def natDigits (n : Nat) : List Char := digitsGo (n + 1) n

/-- Decimal rendering of a natural number as a `String`. -/
def natToStr (n : Nat) : String := ⟨natDigits n⟩

/-- Check whether `pat` is a leading segment of `s` (Python `str.startswith`). -/
def startsWithL (pat : List Char) (s : List Char) : Bool :=
  match pat, s with
  | [], _ => true
  | _ :: _, [] => false
  | p :: ps, c :: cs => p = c && startsWithL ps cs

/-- Check whether `pat` occurs as a contiguous segment of `s`
(Python `in` / the occurrence notion of `str.replace`). -/
def occursIn (pat : List Char) (s : List Char) : Bool :=
  match s with
  | [] => pat.isEmpty
  | _ :: rest => startsWithL pat s || occursIn pat rest

/-- Fuel-driven body of `replaceAll`; for `s.length ≤ f` the fuel never runs
out. -/
def replaceGo (pat rep : List Char) (f : Nat) (s : List Char) : List Char :=
  match f, s with
  | _, [] => []
  | 0, s => s
  | f + 1, c :: rest =>
    if pat ≠ [] ∧ startsWithL pat (c :: rest) then
      rep ++ replaceGo pat rep f ((c :: rest).drop pat.length)
    else
      c :: replaceGo pat rep f rest

/-- Replace every occurrence of `pat` in `s` by `rep`, scanning left to
right, non-overlapping — the semantics of Python `str.replace` for a
non-empty pattern (every pattern the program builds starts with `'!'`,
hence is non-empty; for an empty `pat` this function returns `s`). -/
def replaceAll (pat rep : List Char) (s : List Char) : List Char :=
  replaceGo pat rep s.length s

/-- String-level wrapper of `replaceAll` (Python `str.replace`). -/
def pyReplace (s pat rep : String) : String := ⟨replaceAll pat.data rep.data s.data⟩

/-- Characters stripped by Python `str.strip()` on ASCII text. -/
def pyIsSpace (c : Char) : Bool :=
  c = ' ' || c = '\t' || c = '\n' || c = '\x0d' || c = '\x0b' || c = '\x0c'

/-- Strip leading and trailing whitespace (Python `str.strip()`). -/
def pyStrip (s : String) : String :=
  ⟨((s.data.dropWhile pyIsSpace).reverse.dropWhile pyIsSpace).reverse⟩

/-- Everything after the first comma, or `none` when no comma occurs —
models `s.split(',', 1)[1]`, whose index raises `IndexError` when `s`
contains no comma. -/
def afterFirstComma (s : List Char) : Option (List Char) :=
  match s with
  | [] => none
  | c :: rest => if c = ',' then some rest else afterFirstComma rest

/-! ## Python standard-library models: base64 and paths -/

/-- Value of a standard base64 alphabet character, `none` for every other
character (non-alphabet characters are discarded by non-strict
`base64.b64decode`). -/
def b64CharVal (c : Char) : Option Nat :=
  let n := c.toNat
  if 65 ≤ n ∧ n ≤ 90 then some (n - 65)
  else if 97 ≤ n ∧ n ≤ 122 then some (n - 97 + 26)
  else if 48 ≤ n ∧ n ≤ 57 then some (n - 48 + 52)
  else if n = 43 then some 62
  else if n = 47 then some 63
  else none

/-- Decode a list of 6-bit values into bytes, four values at a time.  A final
group of two or three values is accepted only when padding was present in the
input (`pad`); a final group of one value, or a short final group without
padding, is a decoding error (`binascii.Error`). -/
def decodeGroups (pad : Bool) (vs : List Nat) : Option (List Nat) :=
  match vs with
  | [] => some []
  | [_] => none
  | [a, b] => if pad then some [a * 4 + b / 16] else none
  | [a, b, c] => if pad then some [a * 4 + b / 16, b % 16 * 16 + c / 4] else none
  | a :: b :: c :: d :: rest =>
    match decodeGroups pad rest with
    | some bs => some ([a * 4 + b / 16, b % 16 * 16 + c / 4, c % 4 * 64 + d] ++ bs)
    | none => none

/-- Model of non-strict `base64.b64decode`: non-alphabet characters are
discarded, `'='` signals padding, and a malformed trailing group is a
decoding error (`none`). -/
def b64decode (s : List Char) : Option (List Nat) :=
  decodeGroups (s.contains '=') (s.filterMap b64CharVal)

/-- Model of `os.path.join` for two POSIX components. -/
def pathJoin (a b : String) : String :=
  if startsWithL ['/'] b.data then b
  else if a.data = [] ∨ a.data.getLast? = some '/' then a ++ b
  else a ++ "/" ++ b

/-- Model of `os.path.basename`: the part after the last `'/'`. -/
def osBasename (s : String) : String :=
  ⟨(s.data.reverse.takeWhile (fun c => c != '/')).reverse⟩

/-! ## Data model

An `ImageRecord` carries exactly the keys the two observed response
conventions use; a missing key is `none`.  `process_ocr_response` reads only
`id`, `image_base64` and `format`; the inline-data keys `data`,
`description` and `alt_text` are carried so that inline-data records can be
expressed as inputs. -/

structure ImageRecord where
  id : Option String
  image_base64 : Option String
  format : Option String
  data : Option String
  description : Option String
  alt_text : Option String
deriving DecidableEq

/-- Page mapping: `markdown` (missing key modelled as `none`, read through
`page.get('markdown', '')`) and `images` (missing or null key modelled as
`[]`, read through `page.get('images', [])`). -/
structure Page where
  markdown : Option String
  images : List ImageRecord
deriving DecidableEq

/-- Normalized document as consumed by `process_ocr_response`:
`pages` (missing key modelled as `none`, read through
`response_dict.get('pages', [])`) plus the `raw_text` key produced by the
final normalization fallback. -/
structure ResponseDict where
  pages : Option (List Page)
  raw_text : Option String
deriving DecidableEq

/-- Result of materializing one image record: the record's id, the 0-based
page and image loop indices it was processed under, the on-disk path written,
the relative path spliced into Markdown, and the decoded bytes. -/
structure MaterializedImage where
  imgId : String
  pageIdx : Nat
  imgIdx : Nat
  fsPath : String
  relPath : String
  bytes : List Nat
deriving DecidableEq

/-! ## The materialization pipeline (`process_ocr_response`, lines 12-97) -/

/-- Image filename
`{base_name}_page{page_idx + 1}_img{img_idx + 1}.{image_format}`
(line 62); `pageNo` and `imgNo` are the 1-based values interpolated. -/
def imageFilename (baseName : String) (pageNo imgNo : Nat) (fmt : String) : String :=
  baseName ++ "_page" ++ natToStr pageNo ++ "_img" ++ natToStr imgNo ++ "." ++ fmt

/-- Materialize one image record (loop body of lines 51-84).  Returns `none`
exactly when the record is skipped: missing or empty (falsy) `id` or
`image_base64` (line 56), a `data:image` prefix with no comma
(`IndexError` from `split(',', 1)[1]`, line 69, caught at line 83), or a
base64 decoding error (line 76, caught at line 83). -/
def materializeImage (baseName imageDir : String) (pageIdx imgIdx : Nat)
    (image : ImageRecord) : Option MaterializedImage :=
  match image.id, image.image_base64 with
  | some imageId, some imageB64 =>
    if imageId = "" ∨ imageB64 = "" then none
    else
      let imageFormat := image.format.getD "png"
      let fname := imageFilename baseName (pageIdx + 1) (imgIdx + 1) imageFormat
      let fpath := pathJoin imageDir fname
      let b64data : Option (List Char) :=
        if startsWithL "data:image".data imageB64.data then afterFirstComma imageB64.data
        else some imageB64.data
      match b64data with
      | none => none
      | some d =>
        match b64decode d with
        | none => none
        | some bs =>
          some ⟨imageId, pageIdx, imgIdx, fpath, "./" ++ osBasename imageDir ++ "/" ++ fname, bs⟩
  | _, _ => none

/-- The `for img_idx, image in enumerate(page_images)` loop (lines 51-84):
each record is processed under its own positional index `imgIdx`, skipped
records contribute nothing and do not shift later indices. -/
def materializeImages (baseName imageDir : String) (pageIdx imgIdx : Nat) :
    List ImageRecord → List MaterializedImage
  | [] => []
  | image :: rest =>
    match materializeImage baseName imageDir pageIdx imgIdx image with
    | some m => m :: materializeImages baseName imageDir pageIdx (imgIdx + 1) rest
    | none => materializeImages baseName imageDir pageIdx (imgIdx + 1) rest

/-- Python-dict insertion (`image_data_dict[image_id] = path`, line 81):
an existing key is updated in place, a new key is appended; iteration order
of `.items()` is this insertion order. -/
def dictInsert (d : List (String × String)) (k v : String) : List (String × String) :=
  if d.any (fun e => e.1 == k) then d.map (fun e => if e.1 = k then (k, v) else e)
  else d ++ [(k, v)]

/-- The `image_data_dict` built from the successfully materialized records of
a page (lines 49, 81). -/
def imageDict (mats : List MaterializedImage) : List (String × String) :=
  mats.foldl (fun d m => dictInsert d m.imgId m.relPath) []

/-- The placeholder-rewriting loop (lines 87-89): for each dict entry
`(img_id, img_path)`, replace every occurrence of `![img_id](img_id)` by
`![Image img_id](img_path)`. -/
def rewriteMarkdown (d : List (String × String)) (md : String) : String :=
  d.foldl
    (fun s e =>
      pyReplace s ("![" ++ e.1 ++ "](" ++ e.1 ++ ")") ("![Image " ++ e.1 ++ "](" ++ e.2 ++ ")"))
    md

/-- Per-page processing (loop body of lines 40-92): returns the page's final
Markdown and the images written for the page, in write order. -/
def processPage (baseName imageDir : String) (pageIdx : Nat) (page : Page) :
    String × List MaterializedImage :=
  let pageMarkdown := page.markdown.getD ""
  if page.images.isEmpty then (pageMarkdown, [])
  else
    let mats := materializeImages baseName imageDir pageIdx 0 page.images
    (rewriteMarkdown (imageDict mats) pageMarkdown, mats)

/-- The `for page_idx, page in enumerate(...)` loop (line 40). -/
def processPages (baseName imageDir : String) (pageIdx : Nat) :
    List Page → List (String × List MaterializedImage)
  | [] => []
  | page :: rest =>
    processPage baseName imageDir pageIdx page ::
      processPages baseName imageDir (pageIdx + 1) rest

/-- The `has_images` probe (lines 25-31): some page has a non-empty (truthy)
`images` value. -/
def hasImages (r : ResponseDict) : Bool :=
  (r.pages.getD []).any (fun page => !page.images.isEmpty)

/-- Observable outcome of `process_ocr_response`: the returned Markdown
(line 97), the image files written in program order, and whether the image
directory was created (lines 33-34). -/
structure OcrOutcome where
  content : String
  writes : List MaterializedImage
  dirCreated : Bool
deriving DecidableEq

/-- Full model of `process_ocr_response(response_dict, base_name)`
(lines 12-97): per-page markdown strings are joined with `"\n\n"` (line 95),
image writes are collected page by page in order. -/
def processOcrResponse (r : ResponseDict) (baseName : String) : OcrOutcome :=
  let imageDir := baseName ++ "_images"
  let results := processPages baseName imageDir 0 (r.pages.getD [])
  ⟨String.intercalate "\n\n" (results.map (fun pr => pr.1)),
   (results.map (fun pr => pr.2)).flatten,
   hasImages r⟩

/-! ## Filesystem state and persistence -/

/-- Content of one file on disk: image bytes (`'wb'` write, line 75), text
(`'w'` write of the Markdown, line 174), or the JSON snapshot.  The snapshot
is modelled as the serialized `ResponseDict` value itself, treating
`json.dump` (line 179) as an injective serialization. -/
inductive FileData where
  | bytes (bs : List Nat)
  | text (s : String)
  | jsonOf (r : ResponseDict)
deriving DecidableEq

/-- Filesystem state: directories that exist and files on disk, in creation
order. -/
structure FS where
  dirs : List String
  files : List (String × FileData)
deriving DecidableEq

/-- Model of `os.makedirs(d, exist_ok=True)` (line 34): idempotent. -/
def fsMkdir (fs : FS) (d : String) : FS :=
  if fs.dirs.contains d then fs else ⟨fs.dirs ++ [d], fs.files⟩

/-- Model of an (always-succeeding) truncating file write: an existing path
is overwritten in place, a new path is appended. -/
def fsWrite (fs : FS) (p : String) (d : FileData) : FS :=
  if fs.files.any (fun e => e.1 == p) then
    ⟨fs.dirs, fs.files.map (fun e => if e.1 = p then (p, d) else e)⟩
  else ⟨fs.dirs, fs.files ++ [(p, d)]⟩

/-- Effectful run of `process_ocr_response` against a filesystem state:
the image directory is created when some page has images (lines 33-34), and
the collected image writes are applied in program order (line 75). -/
def runOcrResponse (fs : FS) (r : ResponseDict) (baseName : String) : FS × String :=
  let o := processOcrResponse r baseName
  let fs1 := if o.dirCreated then fsMkdir fs (baseName ++ "_images") else fs
  let fs2 := o.writes.foldl (fun f m => fsWrite f m.fsPath (FileData.bytes m.bytes)) fs1
  (fs2, o.content)

/-- Post-normalization tail of `process_pdf_with_ocr` /
`process_image_with_ocr` (lines 168-186): extract content, write
`{base_name}.md` with the stripped content (lines 173-174), then write
`{base_name}_full.json` (lines 177-179), returning `True`; any raised
exception is caught by the surrounding `except` (lines 184-186), which
returns `False`.  `faults` is the fault model for the artifact writes: the
set of paths whose `open`/write raises (per-image write errors are absorbed
inside `process_ocr_response`'s own per-image handler and are modelled by
`materializeImage` returning `none`). -/
def processDocument (faults : List String) (fs : FS) (r : ResponseDict)
    (baseName : String) : FS × Bool :=
  let run := runOcrResponse fs r baseName
  let outPath := baseName ++ ".md"
  if faults.contains outPath then (run.1, false)
  else
    let fs2 := fsWrite run.1 outPath (FileData.text (pyStrip run.2))
    let jsonPath := baseName ++ "_full.json"
    if faults.contains jsonPath then (fs2, false)
    else (fsWrite fs2 jsonPath (FileData.jsonOf r), true)

/-! ## Response normalization (lines 147-166 and 236-249)

The backend response is opaque; the code probes serialization capabilities
with `hasattr` in a fixed order.  A capability is modelled as `some v` when
the attribute exists (with `v` the value its call returns) and `none` when
`hasattr` is false; `json.loads` is the `loads` collaborator, returning
`none` when it raises `JSONDecodeError`. -/

/-- Plain nested JSON-like value, the canonical mapping shape a successful
probe returns. -/
inductive JsonVal where
  | str (s : String)
  | num (n : Int)
  | boolean (b : Bool)
  | nul
  | arr (xs : List JsonVal)
  | obj (fields : List (String × JsonVal))

/-- Opaque backend response with its probe-relevant surface: the four
optional serialization capabilities and the textual representation
`str(ocr_response)`. -/
structure RawResponse where
  model_dump : Option JsonVal
  dict : Option JsonVal
  to_dict : Option JsonVal
  dunderDict : Option JsonVal
  strRepr : String

/-- Model of the normalization chain (lines 147-166, identical at
lines 236-249): try `model_dump`, then `dict`, then `to_dict`, then
`__dict__`, then `json.loads(str(...))`, else synthesize
`{"raw_text": str(...)}`. -/
def normalizeResponse (loads : String → Option JsonVal) (r : RawResponse) : JsonVal :=
  match r.model_dump with
  | some v => v
  | none =>
    match r.dict with
    | some v => v
    | none =>
      match r.to_dict with
      | some v => v
      | none =>
        match r.dunderDict with
        | some v => v
        | none =>
          match loads r.strRepr with
          | some v => v
          | none => JsonVal.obj [("raw_text", JsonVal.str r.strRepr)]

/-! ## Concrete values used by counterexamples and witnesses -/

/-- Empty filesystem. -/
def emptyFS : FS := ⟨[], []⟩

/-- Inline-data-variant record: carries `data` (a data-URI base64 payload)
and a `description`, but neither `id` nor `image_base64`. -/
def inlineRecord : ImageRecord := ⟨none, none, none, some "data:image/png;base64,QUJD", some "pic", none⟩

/-- One-page response whose only image record is the inline-data record. -/
def inlineResponse : ResponseDict := ⟨some [⟨some "Body text.", [inlineRecord]⟩], none⟩

/-! ## Helper lemmas -/

/-- File writes never change the set of directories. -/
lemma fsWrite_dirs (fs : FS) (p : String) (d : FileData) :
    (fsWrite fs p d).dirs = fs.dirs := by
  unfold fsWrite; split <;> rfl

/-- Record skipping (line 56): a record with a missing or empty (falsy)
`id` or `image_base64` is never materialized. -/
lemma materializeImage_none_of_missing (b d : String) (p k : Nat) (img : ImageRecord)
    (h : img.id = none ∨ img.id = some "" ∨
         img.image_base64 = none ∨ img.image_base64 = some "") :
    materializeImage b d p k img = none := by
  unfold materializeImage
  rcases hid : img.id with _ | s <;> rcases hb : img.image_base64 with _ | t <;> simp
  rcases h with h | h | h | h <;> simp_all

/-- A page whose records are all skipped contributes no writes. -/
lemma materializeImages_nil_of_all_missing (b d : String) (p : Nat) :
    ∀ (imgs : List ImageRecord) (k : Nat),
      (∀ i ∈ imgs, i.id = none ∨ i.id = some "" ∨
        i.image_base64 = none ∨ i.image_base64 = some "") →
      materializeImages b d p k imgs = []
  | [], _, _ => rfl
  | img :: rest, k, h => by
    rw [materializeImages, materializeImage_none_of_missing b d p k img (h img (by simp))]
    exact materializeImages_nil_of_all_missing b d p rest (k + 1)
      (fun i hi => h i (by simp [hi]))

/-- Fuel never matters on the empty string. -/
lemma replaceGo_nil (pat rep : List Char) (f : Nat) : replaceGo pat rep f [] = [] := by
  cases f <;> rfl

/-- Fuel is irrelevant as long as it covers the string's length. -/
lemma replaceGo_fuel (pat rep : List Char) :
    ∀ (f1 : Nat) (s : List Char) (f2 : Nat), s.length ≤ f1 → s.length ≤ f2 →
      replaceGo pat rep f1 s = replaceGo pat rep f2 s
  | _, [], f2, _, _ => by rw [replaceGo_nil, replaceGo_nil]
  | 0, c :: rest, _, h1, _ => by simp at h1
  | f1 + 1, c :: rest, f2, h1, h2 => by
    rcases f2 with _ | g
    · simp at h2
    · show (if pat ≠ [] ∧ startsWithL pat (c :: rest) then
            rep ++ replaceGo pat rep f1 ((c :: rest).drop pat.length)
          else c :: replaceGo pat rep f1 rest) =
        (if pat ≠ [] ∧ startsWithL pat (c :: rest) then
            rep ++ replaceGo pat rep g ((c :: rest).drop pat.length)
          else c :: replaceGo pat rep g rest)
      by_cases hc : pat ≠ [] ∧ startsWithL pat (c :: rest)
      · have hp : 0 < pat.length := List.length_pos.mpr hc.1
        have hd : ((c :: rest).drop pat.length).length ≤ rest.length := by
          simp only [List.length_drop, List.length_cons]; omega
        rw [if_pos hc, if_pos hc,
          replaceGo_fuel pat rep f1 ((c :: rest).drop pat.length) g
            (by simp only [List.length_cons] at h1; omega)
            (by simp only [List.length_cons] at h2; omega)]
      · rw [if_neg hc, if_neg hc,
          replaceGo_fuel pat rep f1 rest g
            (by simp only [List.length_cons] at h1; omega)
            (by simp only [List.length_cons] at h2; omega)]

/-- Unfolding equation of `replaceAll` on a non-empty string. -/
lemma replaceAll_cons (pat rep : List Char) (c : Char) (rest : List Char) :
    replaceAll pat rep (c :: rest) =
      if pat ≠ [] ∧ startsWithL pat (c :: rest) then
        rep ++ replaceAll pat rep ((c :: rest).drop pat.length)
      else c :: replaceAll pat rep rest := by
  show (if pat ≠ [] ∧ startsWithL pat (c :: rest) then
      rep ++ replaceGo pat rep rest.length ((c :: rest).drop pat.length)
    else c :: replaceGo pat rep rest.length rest) = _
  by_cases hc : pat ≠ [] ∧ startsWithL pat (c :: rest)
  · have hp : 0 < pat.length := List.length_pos.mpr hc.1
    rw [if_pos hc, if_pos hc, replaceAll,
      replaceGo_fuel pat rep rest.length ((c :: rest).drop pat.length)
        ((c :: rest).drop pat.length).length
        (by simp only [List.length_drop, List.length_cons]; omega) (Nat.le_refl _)]
  · rw [if_neg hc, if_neg hc]
    rfl

/-- A pattern is a leading segment of itself followed by anything. -/
lemma startsWithL_append (pat t : List Char) : startsWithL pat (pat ++ t) = true := by
  induction pat with
  | nil => rfl
  | cons p ps ih => simp [startsWithL, ih]

/-- Characterization of `startsWithL`. -/
lemma startsWithL_iff (pat : List Char) :
    ∀ (s : List Char), startsWithL pat s = true ↔ ∃ t, s = pat ++ t := by
  induction pat with
  | nil => intro s; simp [startsWithL]
  | cons p ps ih =>
    intro s
    rcases s with _ | ⟨c, cs⟩
    · simp [startsWithL]
    · simp only [startsWithL, Bool.and_eq_true, decide_eq_true_eq, ih, List.cons_append,
        List.cons.injEq]
      constructor
      · rintro ⟨hpc, t, ht⟩; exact ⟨t, hpc.symm, ht⟩
      · rintro ⟨t, hpc, ht⟩; exact ⟨hpc.symm, t, ht⟩

/-- A string in which the pattern does not occur is returned unchanged by
`replaceAll`. -/
lemma replaceAll_of_not_occurs (pat rep : List Char) :
    ∀ (s : List Char), occursIn pat s = false → replaceAll pat rep s = s := by
  intro s
  induction s with
  | nil => intro _; rfl
  | cons c rest ih =>
    intro h
    simp only [occursIn, Bool.or_eq_false_iff] at h
    rw [replaceAll_cons, if_neg (by simp [h.1]), ih h.2]

/-- The leftmost-occurrence step of `replaceAll`: at the leftmost occurrence
of the pattern, the text before it is kept, the occurrence is replaced, and
scanning resumes after it (non-overlapping, left to right). -/
lemma replaceAll_leftmost (pat rep : List Char) :
    ∀ (x y : List Char), pat ≠ [] →
      (∀ u v, x ++ pat ++ y = u ++ pat ++ v → x.length ≤ u.length) →
      replaceAll pat rep (x ++ pat ++ y) = x ++ rep ++ replaceAll pat rep y
  | [], y, hne, _ => by
    rcases hpat : pat with _ | ⟨p, ps⟩
    · exact absurd hpat hne
    · subst hpat
      rw [List.nil_append, List.cons_append, replaceAll_cons,
        if_pos ⟨List.cons_ne_nil p ps,
          by rw [← List.cons_append]; exact startsWithL_append (p :: ps) y⟩,
        ← List.cons_append, List.drop_left, List.nil_append]
  | c :: x', y, hne, hmin => by
    have hns : startsWithL pat (c :: (x' ++ (pat ++ y))) = false := by
      cases hb : startsWithL pat (c :: (x' ++ (pat ++ y))) with
      | false => rfl
      | true =>
        rcases (startsWithL_iff pat _).mp hb with ⟨t, ht⟩
        have h0 := hmin [] t (by simpa using ht)
        simp at h0
    rw [List.cons_append, List.cons_append, replaceAll_cons, if_neg (by simp [hns]),
      replaceAll_leftmost pat rep x' y hne
        (fun u v huv => by
          have := hmin (c :: u) v (by simp only [List.cons_append]; rw [huv])
          simpa using this)]
    simp

/-- Digit fuel is irrelevant as long as it exceeds the number. -/
lemma digitsGo_fuel : ∀ (f1 : Nat) (n : Nat) (f2 : Nat), n < f1 → n < f2 →
    digitsGo f1 n = digitsGo f2 n
  | 0, n, _, h1, _ => by omega
  | _ + 1, n, 0, _, h2 => by omega
  | f1 + 1, n, f2 + 1, h1, h2 => by
    show (if n < 10 then [decDigit n] else digitsGo f1 (n / 10) ++ [decDigit (n % 10)]) = _
    by_cases h : n < 10
    · rw [if_pos h]
      show _ = (if n < 10 then [decDigit n] else _)
      rw [if_pos h]
    · have hd : n / 10 < n := Nat.div_lt_self (by omega) (by omega)
      rw [if_neg h]
      show _ = (if n < 10 then [decDigit n] else digitsGo f2 (n / 10) ++ [decDigit (n % 10)])
      rw [if_neg h, digitsGo_fuel f1 (n / 10) f2 (by omega) (by omega)]

/-- Unfolding equation of `natDigits`. -/
lemma natDigits_eq (n : Nat) :
    natDigits n = if n < 10 then [decDigit n]
      else natDigits (n / 10) ++ [decDigit (n % 10)] := by
  show digitsGo (n + 1) n = _
  by_cases h : n < 10
  · show (if n < 10 then [decDigit n] else _) = _
    rw [if_pos h, if_pos h]
  · have hd : n / 10 < n := Nat.div_lt_self (by omega) (by omega)
    show (if n < 10 then [decDigit n] else digitsGo n (n / 10) ++ [decDigit (n % 10)]) = _
    rw [if_neg h, if_neg h, digitsGo_fuel n (n / 10) (n / 10 + 1) (by omega) (by omega)]
    rfl

/-- Value of a digit character below ten. -/
lemma decDigit_toNat (d : Nat) (h : d < 10) : (decDigit d).toNat = 48 + d := by
  interval_cases d <;> rfl

/-- Every character of a decimal rendering is a digit (code 48-57). -/
lemma mem_natDigits (n : Nat) : ∀ c ∈ natDigits n, 48 ≤ c.toNat ∧ c.toNat ≤ 57 := by
  induction n using Nat.strong_induction_on with
  | _ n ih =>
    intro c hc
    rw [natDigits_eq] at hc
    by_cases h : n < 10
    · rw [if_pos h, List.mem_singleton] at hc
      subst hc
      rw [decDigit_toNat n h]
      omega
    · rw [if_neg h, List.mem_append, List.mem_singleton] at hc
      rcases hc with hc | hc
      · exact ih (n / 10) (Nat.div_lt_self (by omega) (by omega)) c hc
      · subst hc
        rw [decDigit_toNat (n % 10) (Nat.mod_lt n (by omega))]
        have := Nat.mod_lt n (show 0 < 10 by omega)
        omega

/-- A character with a code outside 48-57 never occurs in a decimal
rendering. -/
lemma not_mem_natDigits (n : Nat) (c : Char) (hc : c.toNat < 48 ∨ 57 < c.toNat) :
    c ∉ natDigits n := by
  intro hm
  have := mem_natDigits n c hm
  omega

/-- Numeric value of a digit list, used to invert `natDigits`. -/
def digitsVal (l : List Char) : Nat :=
  l.foldl (fun a c => 10 * a + (c.toNat - 48)) 0

/-- The decimal rendering evaluates back to the number. -/
lemma digitsVal_natDigits : ∀ n, digitsVal (natDigits n) = n := by
  intro n
  induction n using Nat.strong_induction_on with
  | _ n ih =>
    rw [natDigits_eq]
    by_cases h : n < 10
    · rw [if_pos h]
      show 10 * 0 + ((decDigit n).toNat - 48) = n
      rw [decDigit_toNat n h]
      omega
    · rw [if_neg h]
      show (natDigits (n / 10) ++ [decDigit (n % 10)]).foldl
        (fun a c => 10 * a + (c.toNat - 48)) 0 = n
      rw [List.foldl_append]
      show 10 * digitsVal (natDigits (n / 10)) + ((decDigit (n % 10)).toNat - 48) = n
      rw [ih (n / 10) (Nat.div_lt_self (by omega) (by omega)),
        decDigit_toNat (n % 10) (Nat.mod_lt n (by omega))]
      omega

/-- Decimal renderings of distinct numbers are distinct. -/
lemma natDigits_inj {a b : Nat} (h : natDigits a = natDigits b) : a = b := by
  have hv := congrArg digitsVal h
  rwa [digitsVal_natDigits, digitsVal_natDigits] at hv

/-- Splitting at a marker character that occurs in neither left part:
the decomposition around the marker is unique. -/
lemma append_marker_eq {m : Char} :
    ∀ (a x b y : List Char), a ++ m :: x = b ++ m :: y → m ∉ a → m ∉ b →
      a = b ∧ x = y
  | [], x, [], y, h, _, _ => by
    simp only [List.nil_append, List.cons.injEq, true_and] at h
    exact ⟨rfl, h⟩
  | [], x, d :: b', y, h, _, hmb => by
    simp only [List.nil_append, List.cons_append, List.cons.injEq] at h
    exact absurd (h.1 ▸ List.mem_cons_self d b') hmb
  | c :: a', x, [], y, h, hma, _ => by
    simp only [List.nil_append, List.cons_append, List.cons.injEq] at h
    exact absurd (h.1 ▸ List.mem_cons_self c a') hma
  | c :: a', x, d :: b', y, h, hma, hmb => by
    simp only [List.cons_append, List.cons.injEq] at h
    have htail := append_marker_eq a' x b' y h.2
      (fun hm => hma (List.mem_cons_of_mem c hm))
      (fun hm => hmb (List.mem_cons_of_mem d hm))
    exact ⟨by rw [h.1, htail.1], htail.2⟩

/-- Character-level shape of `imageFilename`. -/
lemma imageFilename_data (b : String) (p i : Nat) (f : String) :
    (imageFilename b p i f).data =
      b.data ++ ('_' :: 'p' :: 'a' :: 'g' :: 'e' ::
        (natDigits p ++ ('_' :: 'i' :: 'm' :: 'g' ::
          (natDigits i ++ ('.' :: f.data))))) := by
  show (b ++ "_page" ++ natToStr p ++ "_img" ++ natToStr i ++ "." ++ f).data = _
  simp only [String.data_append, List.append_assoc]
  rfl

/-- Within one document (fixed base name), the image filename determines the
1-based page and image numbers: the numerals contain neither `'_'` nor
`'.'`, so the `"_img"` and `"."` markers split the name unambiguously. -/
lemma imageFilename_inj (b f f' : String) (p i p' i' : Nat)
    (h : imageFilename b p i f = imageFilename b p' i' f') : p = p' ∧ i = i' := by
  have hd := congrArg String.data h
  rw [imageFilename_data, imageFilename_data] at hd
  have h1 := List.append_cancel_left hd
  simp only [List.cons.injEq, true_and] at h1
  have h2 := append_marker_eq (natDigits p) _ (natDigits p') _ h1
    (not_mem_natDigits p '_' (by right; decide))
    (not_mem_natDigits p' '_' (by right; decide))
  have hp := natDigits_inj h2.1
  have h3 := h2.2
  simp only [List.cons.injEq, true_and] at h3
  have h4 := append_marker_eq (natDigits i) _ (natDigits i') _ h3
    (not_mem_natDigits i '.' (by left; decide))
    (not_mem_natDigits i' '.' (by left; decide))
  exact ⟨hp, natDigits_inj h4.1⟩

/-- Whether an image filename starts with `'/'` depends only on the base
name, never on the page or image numbers or the format. -/
lemma imageFilename_startsSlash (b : String) (p i : Nat) (f : String) :
    startsWithL ['/'] (imageFilename b p i f).data =
      startsWithL ['/'] (b.data ++ ['_']) := by
  rw [imageFilename_data]
  rcases b.data with _ | ⟨c, t⟩ <;> simp [startsWithL]

/-- The image directory path `{base}_images` is non-empty and does not end
with a slash, so `os.path.join` is plain concatenation with `"/"` (unless
the filename is absolute, in which case the directory is ignored). -/
lemma pathJoin_imageDir (b : String) (fn : String)
    (hns : startsWithL ['/'] fn.data = false) :
    pathJoin (b ++ "_images") fn = (b ++ "_images") ++ "/" ++ fn := by
  unfold pathJoin
  rw [hns]
  have h1 : ¬((b ++ "_images").data = [] ∨
      (b ++ "_images").data.getLast? = some '/') := by
    rw [String.data_append]
    rintro (h | h)
    · simp at h
    · rw [List.getLast?_append] at h
      simp at h
  simp only [Bool.false_eq_true, if_false, if_neg h1]

/-- Image paths within one document are injective in the 1-based page and
image numbers. -/
lemma imagePath_inj (b f f' : String) (p i p' i' : Nat)
    (h : pathJoin (b ++ "_images") (imageFilename b p i f) =
         pathJoin (b ++ "_images") (imageFilename b p' i' f')) : p = p' ∧ i = i' := by
  apply imageFilename_inj b f f' p i p' i'
  rcases hsl : startsWithL ['/'] (imageFilename b p i f).data with _ | _
  · have hsl' : startsWithL ['/'] (imageFilename b p' i' f').data = false := by
      rw [imageFilename_startsSlash] at hsl ⊢
      exact hsl
    rw [pathJoin_imageDir b _ hsl, pathJoin_imageDir b _ hsl'] at h
    apply String.ext
    have hd := congrArg String.data h
    simp only [String.data_append, List.append_assoc] at hd
    exact List.append_cancel_left (List.append_cancel_left (List.append_cancel_left hd))
  · have hsl' : startsWithL ['/'] (imageFilename b p' i' f').data = true := by
      rw [imageFilename_startsSlash] at hsl ⊢
      exact hsl
    unfold pathJoin at h
    rw [hsl, hsl'] at h
    simpa using h

/-- The page loop visits every page and keeps page order: it is the indexed
map of the per-page body over the page list. -/
lemma processPages_map_fst (b d : String) :
    ∀ (ps : List Page) (i : Nat),
      (processPages b d i ps).map (fun pr => pr.1) =
        ps.mapIdx (fun k p => (processPage b d (i + k) p).1)
  | [], _ => by simp [processPages]
  | p :: rest, i => by
    rw [processPages, List.map_cons, List.mapIdx_cons, processPages_map_fst b d rest (i + 1)]
    simp only [Nat.add_zero, List.cons.injEq, true_and]
    congr 1
    funext k q
    rw [show i + 1 + k = i + (k + 1) from by omega]

/-- The page loop never drops a page slot. -/
lemma processPages_length (b d : String) :
    ∀ (ps : List Page) (i : Nat), (processPages b d i ps).length = ps.length
  | [], _ => rfl
  | _ :: rest, i => by
    rw [processPages, List.length_cons, List.length_cons,
      processPages_length b d rest (i + 1)]

/-- Shape facts of a successful materialization: the result carries the loop
indices it was produced under and the path built from them. -/
lemma materializeImage_some (b d : String) (p k : Nat) (img : ImageRecord)
    (m : MaterializedImage) (h : materializeImage b d p k img = some m) :
    m.pageIdx = p ∧ m.imgIdx = k ∧
    m.fsPath = pathJoin d (imageFilename b (p + 1) (k + 1) (img.format.getD "png")) := by
  rcases hid : img.id with _ | imageId
  · simp [materializeImage, hid] at h
  · rcases hb : img.image_base64 with _ | imageB64
    · simp [materializeImage, hid, hb] at h
    · by_cases hemp : imageId = "" ∨ imageB64 = ""
      · simp [materializeImage, hid, hb, hemp] at h
      · by_cases hsw : startsWithL "data:image".data imageB64.data
        · rcases hafc : afterFirstComma imageB64.data with _ | d1
          · simp [materializeImage, hid, hb, hemp, hsw, hafc] at h
          · rcases hdec : b64decode d1 with _ | bs
            · simp [materializeImage, hid, hb, hemp, hsw, hafc, hdec] at h
            · simp [materializeImage, hid, hb, hemp, hsw, hafc, hdec] at h
              subst h
              exact ⟨rfl, rfl, rfl⟩
        · rcases hdec : b64decode imageB64.data with _ | bs
          · simp [materializeImage, hid, hb, hemp, hsw, hdec] at h
          · simp [materializeImage, hid, hb, hemp, hsw, hdec] at h
            subst h
            exact ⟨rfl, rfl, rfl⟩

/-- Membership in the image loop's output: each produced record sits at its
own 0-based position `m.imgIdx` in the page's `images` list (positions are
counted from the loop start `k`, skipped records do not shift them). -/
lemma mem_materializeImages (b d : String) (p : Nat) :
    ∀ (imgs : List ImageRecord) (k : Nat) (m : MaterializedImage),
      m ∈ materializeImages b d p k imgs →
      k ≤ m.imgIdx ∧ ∃ img, imgs[m.imgIdx - k]? = some img ∧
        materializeImage b d p m.imgIdx img = some m
  | [], k, m, h => by simp [materializeImages] at h
  | img :: rest, k, m, h => by
    rw [materializeImages] at h
    rcases hmi : materializeImage b d p k img with _ | m0
    · rw [hmi] at h
      obtain ⟨hk, img', hget, hmat⟩ := mem_materializeImages b d p rest (k + 1) m h
      refine ⟨by omega, img', ?_, hmat⟩
      rw [show m.imgIdx - k = (m.imgIdx - (k + 1)) + 1 from by omega,
        List.getElem?_cons_succ]
      exact hget
    · rw [hmi] at h
      rcases List.mem_cons.mp h with h | h
      · subst h
        have hk := (materializeImage_some b d p k img m hmi).2.1
        refine ⟨by omega, img, ?_, ?_⟩
        · rw [show m.imgIdx - k = 0 from by omega, List.getElem?_cons_zero]
        · rw [hk]; exact hmi
      · obtain ⟨hk, img', hget, hmat⟩ := mem_materializeImages b d p rest (k + 1) m h
        refine ⟨by omega, img', ?_, hmat⟩
        rw [show m.imgIdx - k = (m.imgIdx - (k + 1)) + 1 from by omega,
          List.getElem?_cons_succ]
        exact hget

/-- Every record produced for a page carries that page's index. -/
lemma mem_materializeImages_pageIdx (b d : String) (p : Nat)
    (imgs : List ImageRecord) (k : Nat) (m : MaterializedImage)
    (h : m ∈ materializeImages b d p k imgs) : m.pageIdx = p := by
  obtain ⟨_, img, _, hmat⟩ := mem_materializeImages b d p imgs k m h
  exact (materializeImage_some b d p m.imgIdx img m hmat).1

/-- Image indices within one page's output are strictly increasing. -/
lemma materializeImages_pairwise (b d : String) (p : Nat) :
    ∀ (imgs : List ImageRecord) (k : Nat),
      (materializeImages b d p k imgs).Pairwise (fun m m' => m.imgIdx < m'.imgIdx)
  | [], _ => List.Pairwise.nil
  | img :: rest, k => by
    rw [materializeImages]
    rcases hmi : materializeImage b d p k img with _ | m0
    · exact materializeImages_pairwise b d p rest (k + 1)
    · refine List.Pairwise.cons ?_ (materializeImages_pairwise b d p rest (k + 1))
      intro m' hm'
      have h1 := (mem_materializeImages b d p rest (k + 1) m' hm').1
      have h0 := (materializeImage_some b d p k img m0 hmi).2.1
      omega

/-- The writes of one page are exactly the image loop's output. -/
lemma processPage_writes (b d : String) (i : Nat) (page : Page) :
    (processPage b d i page).2 = materializeImages b d i 0 page.images := by
  rcases page with ⟨md?, imgs⟩
  rcases imgs with _ | ⟨img, rest⟩
  · simp [processPage, materializeImages]
  · simp [processPage]

/-- Page indices of all writes from page `i` onward are at least `i`. -/
lemma mem_pagesWrites (b d : String) :
    ∀ (ps : List Page) (i : Nat) (m : MaterializedImage),
      m ∈ ((processPages b d i ps).map (fun pr => pr.2)).flatten → i ≤ m.pageIdx
  | [], i, m, h => by simp [processPages] at h
  | page :: rest, i, m, h => by
    rw [processPages] at h
    simp only [List.map_cons, List.flatten_cons, List.mem_append] at h
    rcases h with h | h
    · rw [processPage_writes] at h
      rw [mem_materializeImages_pageIdx b d i page.images 0 m h]
    · have := mem_pagesWrites b d rest (i + 1) m h
      omega

/-- Every write of the whole document has a path of the canonical shape,
built from its own page and image indices. -/
lemma mem_pagesWrites_fsPath (b d : String) :
    ∀ (ps : List Page) (i : Nat) (m : MaterializedImage),
      m ∈ ((processPages b d i ps).map (fun pr => pr.2)).flatten →
      ∃ fmt, m.fsPath = pathJoin d (imageFilename b (m.pageIdx + 1) (m.imgIdx + 1) fmt)
  | [], i, m, h => by simp [processPages] at h
  | page :: rest, i, m, h => by
    rw [processPages] at h
    simp only [List.map_cons, List.flatten_cons, List.mem_append] at h
    rcases h with h | h
    · rw [processPage_writes] at h
      obtain ⟨_, img, _, hmat⟩ := mem_materializeImages b d i page.images 0 m h
      have hf := materializeImage_some b d i m.imgIdx img m hmat
      exact ⟨img.format.getD "png", by rw [hf.2.2, hf.1]⟩
    · exact mem_pagesWrites_fsPath b d rest (i + 1) m h

/-- Across the whole document, any two distinct writes differ in page index
or in image index. -/
lemma pagesWrites_pairwise (b d : String) :
    ∀ (ps : List Page) (i : Nat),
      (((processPages b d i ps).map (fun pr => pr.2)).flatten).Pairwise
        (fun m m' => m.pageIdx ≠ m'.pageIdx ∨ m.imgIdx ≠ m'.imgIdx)
  | [], i => by simp [processPages]
  | page :: rest, i => by
    rw [processPages]
    simp only [List.map_cons, List.flatten_cons]
    rw [List.pairwise_append]
    refine ⟨?_, pagesWrites_pairwise b d rest (i + 1), ?_⟩
    · rw [processPage_writes]
      exact (materializeImages_pairwise b d i page.images 0).imp
        (fun h => Or.inr (Nat.ne_of_lt h))
    · intro a ha m' hm'
      rw [processPage_writes] at ha
      have h1 := mem_materializeImages_pageIdx b d i page.images 0 a ha
      have h2 := mem_pagesWrites b d rest (i + 1) m' hm'
      left
      omega

/-! ## Claim theorems -/

/-- C1 (counterexample): on a page `"Body text."` carrying one inline-data
record (data-URI payload, description `"pic"`), the code appends nothing to
the page's Markdown and writes no image bytes — the record is skipped —
contradicting the claimed appended reference
`"\n\n![pic](./doc_images/doc_page1_img1.png)\n\n"`. -/
theorem c1_inline_data_counterexample :
    (processOcrResponse inlineResponse "doc").content = "Body text." ∧
    (processOcrResponse inlineResponse "doc").writes = [] ∧
    (processOcrResponse inlineResponse "doc").content ≠
      "Body text." ++ "\n\n![pic](./doc_images/doc_page1_img1.png)" ++ "\n\n" := by
  refine ⟨rfl, rfl, ?_⟩
  decide

/-- C1 (amended): a record of the inline-data variant — carrying `data` but
no truthy `id` or `image_base64` — is skipped: it is never materialized, and
a page all of whose records are such is returned with its Markdown unchanged
and no bytes written; nothing is ever appended to a page's Markdown. -/
theorem c1_inline_data_skipped :
    (∀ (b d : String) (p k : Nat) (img : ImageRecord),
      (img.id = none ∨ img.id = some "" ∨
        img.image_base64 = none ∨ img.image_base64 = some "") →
      materializeImage b d p k img = none) ∧
    (∀ (b d : String) (p : Nat) (md : String) (imgs : List ImageRecord),
      (∀ i ∈ imgs, i.id = none ∨ i.id = some "" ∨
        i.image_base64 = none ∨ i.image_base64 = some "") →
      processPage b d p ⟨some md, imgs⟩ = (md, [])) := by
  refine ⟨materializeImage_none_of_missing, ?_⟩
  intro b d p md imgs h
  unfold processPage
  rcases imgs with _ | ⟨img, rest⟩
  · rfl
  · simp only [List.isEmpty_cons, if_neg]
    rw [materializeImages_nil_of_all_missing b d p _ 0 h]
    rfl

/-- C1 (witness): concrete application of the amended theorem to the
inline-data record. -/
theorem c1_inline_data_skipped_witness :
    materializeImage "doc" "doc_images" 0 0 inlineRecord = none ∧
    processPage "doc" "doc_images" 0 ⟨some "Body text.", [inlineRecord]⟩ = ("Body text.", []) :=
  ⟨c1_inline_data_skipped.1 "doc" "doc_images" 0 0 inlineRecord (Or.inl rfl),
   c1_inline_data_skipped.2 "doc" "doc_images" 0 "Body text." [inlineRecord]
     (by intro i hi; rw [List.mem_singleton] at hi; subst hi; exact Or.inl rfl)⟩

/-- C2: the normalization chain tries `model_dump`, `dict`, `to_dict`,
`__dict__`, then JSON-parsing the textual representation, in this exact
order with first match winning; in particular a present `model_dump` output
is used verbatim regardless of the later capabilities, and when everything
fails the result is `{"raw_text": str(response)}`. -/
theorem c2_normalization_probe_order
    (loads : String → Option JsonVal) (r : RawResponse) (v : JsonVal) :
    (r.model_dump = some v → normalizeResponse loads r = v) ∧
    (r.model_dump = none → r.dict = some v → normalizeResponse loads r = v) ∧
    (r.model_dump = none → r.dict = none → r.to_dict = some v →
      normalizeResponse loads r = v) ∧
    (r.model_dump = none → r.dict = none → r.to_dict = none →
      r.dunderDict = some v → normalizeResponse loads r = v) ∧
    (r.model_dump = none → r.dict = none → r.to_dict = none →
      r.dunderDict = none → loads r.strRepr = some v →
      normalizeResponse loads r = v) ∧
    (r.model_dump = none → r.dict = none → r.to_dict = none →
      r.dunderDict = none → loads r.strRepr = none →
      normalizeResponse loads r = JsonVal.obj [("raw_text", JsonVal.str r.strRepr)]) := by
  refine ⟨?_, ?_, ?_, ?_, ?_, ?_⟩ <;> intros <;> simp_all [normalizeResponse]

/-- C2 (witness): a response exposing all four capabilities with distinct
outputs normalizes to the `model_dump` output. -/
theorem c2_normalization_probe_order_witness :
    normalizeResponse (fun _ => none)
      ⟨some (JsonVal.str "md"), some (JsonVal.str "d"), some (JsonVal.str "td"),
        some (JsonVal.str "dd"), "txt"⟩ = JsonVal.str "md" :=
  (c2_normalization_probe_order (fun _ => none)
    ⟨some (JsonVal.str "md"), some (JsonVal.str "d"), some (JsonVal.str "td"),
      some (JsonVal.str "dd"), "txt"⟩ (JsonVal.str "md")).1 rfl

/-- C3 (failing input): when the write of `{base_name}_full.json` raises
after `{base_name}.md` has already been written, the document is marked
failed (`False` is returned) but the Markdown artifact alone remains on
disk — a partial artifact pair, contradicting the claim that none is ever
left. -/
theorem c3_partial_pair_on_json_failure :
    (processDocument ["doc_full.json"] emptyFS ⟨some [], none⟩ "doc").2 = false ∧
    (processDocument ["doc_full.json"] emptyFS ⟨some [], none⟩ "doc").1.files =
      [("doc.md", FileData.text "")] :=
  ⟨rfl, rfl⟩

/-- C7: a normalized document with absent or empty `pages` — the shape of
the `{"raw_text": ...}` fallback — assembles to the empty Markdown string,
creates no image directory and writes no image bytes, yet both the `.md`
file (holding the empty string) and the `_full.json` snapshot (holding the
full normalized document, the only place the raw text survives) are still
written and the document counts as a success. -/
theorem c7_empty_pages (fs : FS) (r : ResponseDict) (b : String)
    (h : r.pages = none ∨ r.pages = some []) :
    (processOcrResponse r b).content = "" ∧
    (processOcrResponse r b).writes = [] ∧
    (processOcrResponse r b).dirCreated = false ∧
    processDocument [] fs r b =
      (fsWrite (fsWrite fs (b ++ ".md") (FileData.text ""))
        (b ++ "_full.json") (FileData.jsonOf r), true) ∧
    (processDocument [] fs r b).1.dirs = fs.dirs := by
  have hp : r.pages.getD [] = [] := by rcases h with h | h <;> simp [h]
  have hc : processOcrResponse r b = ⟨"", [], false⟩ := by
    simp [processOcrResponse, hp, processPages, hasImages, String.intercalate]
  have h4 : processDocument [] fs r b =
      (fsWrite (fsWrite fs (b ++ ".md") (FileData.text ""))
        (b ++ "_full.json") (FileData.jsonOf r), true) := by
    simp [processDocument, runOcrResponse, hc]
    rfl
  exact ⟨by rw [hc], by rw [hc], by rw [hc], h4,
    by rw [h4]; rw [fsWrite_dirs, fsWrite_dirs]⟩

/-- C7 (witness): the raw-text fallback document, processed against the
empty filesystem. -/
theorem c7_empty_pages_witness :
    (processOcrResponse ⟨none, some "oops"⟩ "out").content = "" ∧
    (processOcrResponse ⟨none, some "oops"⟩ "out").writes = [] ∧
    (processOcrResponse ⟨none, some "oops"⟩ "out").dirCreated = false ∧
    processDocument [] emptyFS ⟨none, some "oops"⟩ "out" =
      (fsWrite (fsWrite emptyFS ("out" ++ ".md") (FileData.text ""))
        ("out" ++ "_full.json") (FileData.jsonOf ⟨none, some "oops"⟩), true) ∧
    (processDocument [] emptyFS ⟨none, some "oops"⟩ "out").1.dirs = emptyFS.dirs :=
  c7_empty_pages emptyFS ⟨none, some "oops"⟩ "out" (Or.inl rfl)

/-- C9: the response-to-Markdown transformation is a function of the
normalized response mapping and the base name alone — two runs against any
two filesystem states return identical Markdown and choose identical image
file paths. -/
theorem c9_deterministic (fs fs' : FS) (r r' : ResponseDict) (b b' : String)
    (hr : r = r') (hb : b = b') :
    (runOcrResponse fs r b).2 = (runOcrResponse fs' r' b').2 ∧
    (processOcrResponse r b).writes.map (fun m => m.fsPath) =
      (processOcrResponse r' b').writes.map (fun m => m.fsPath) := by
  subst hr; subst hb; exact ⟨rfl, rfl⟩

/-- C9 (witness): concrete instance on two different filesystem states. -/
theorem c9_deterministic_witness :
    (runOcrResponse emptyFS inlineResponse "doc").2 =
      (runOcrResponse ⟨["d"], [("f", FileData.text "x")]⟩ inlineResponse "doc").2 ∧
    (processOcrResponse inlineResponse "doc").writes.map (fun m => m.fsPath) =
      (processOcrResponse inlineResponse "doc").writes.map (fun m => m.fsPath) :=
  c9_deterministic emptyFS ⟨["d"], [("f", FileData.text "x")]⟩
    inlineResponse inlineResponse "doc" "doc" rfl rfl

/-- C4: on a page whose record with id `X` is materialized to relative path
`P`, the page's Markdown is rewritten by replacing occurrences of the exact
substring `![X](X)` with `![Image X](P)`; a record that fails to materialize
leaves the Markdown completely untouched without error, as does a pattern
that never occurs in the text; and the replacement operation replaces every
occurrence, scanning left to right, keeping the surrounding text. -/
theorem c4_placeholder_rewrite :
    (∀ (b d : String) (i : Nat) (md : String) (img : ImageRecord) (m : MaterializedImage),
      materializeImage b d i 0 img = some m →
      processPage b d i ⟨some md, [img]⟩ =
        (pyReplace md ("![" ++ m.imgId ++ "](" ++ m.imgId ++ ")")
          ("![Image " ++ m.imgId ++ "](" ++ m.relPath ++ ")"), [m])) ∧
    (∀ (b d : String) (i : Nat) (md : String) (img : ImageRecord),
      materializeImage b d i 0 img = none →
      processPage b d i ⟨some md, [img]⟩ = (md, [])) ∧
    (∀ (pat rep s : List Char), occursIn pat s = false → replaceAll pat rep s = s) ∧
    (∀ (pat rep x y : List Char), pat ≠ [] →
      (∀ u v, x ++ pat ++ y = u ++ pat ++ v → x.length ≤ u.length) →
      replaceAll pat rep (x ++ pat ++ y) = x ++ rep ++ replaceAll pat rep y) := by
  refine ⟨?_, ?_, replaceAll_of_not_occurs, replaceAll_leftmost⟩
  · intro b d i md img m h
    simp [processPage, materializeImages, h, imageDict, dictInsert, rewriteMarkdown]
  · intro b d i md img h
    simp [processPage, materializeImages, h, imageDict, rewriteMarkdown]

/-- C4 (witness): the spec's round trip — page `"See ![abc](abc) here."`
with record `{id: "abc", image_base64: "QUJD"}` rewrites to
`"See ![Image abc](./doc_images/doc_page1_img1.png) here."`. -/
theorem c4_placeholder_rewrite_witness :
    processPage "doc" "doc_images" 0
        ⟨some "See ![abc](abc) here.", [⟨some "abc", some "QUJD", none, none, none, none⟩]⟩ =
      ("See ![Image abc](./doc_images/doc_page1_img1.png) here.",
        [⟨"abc", 0, 0, "doc_images/doc_page1_img1.png",
          "./doc_images/doc_page1_img1.png", [65, 66, 67]⟩]) := by
  rw [c4_placeholder_rewrite.1 "doc" "doc_images" 0 "See ![abc](abc) here."
    ⟨some "abc", some "QUJD", none, none, none, none⟩
    ⟨"abc", 0, 0, "doc_images/doc_page1_img1.png",
      "./doc_images/doc_page1_img1.png", [65, 66, 67]⟩ (by decide)]
  decide

/-- Three-record page of the isolation example: the middle record's base64
payload `"QQ"` fails to decode (incorrect padding), the outer two decode. -/
def mixedPage : Page :=
  ⟨some "A ![one](one) B ![two](two) C ![three](three)",
    [⟨some "one", some "QQ==", none, none, none, none⟩,
     ⟨some "two", some "QQ", none, none, none, none⟩,
     ⟨some "three", some "QUI=", none, none, none, none⟩]⟩

/-- One-page response holding `mixedPage`. -/
def mixedResponse : ResponseDict := ⟨some [mixedPage], none⟩

/-- Expected Markdown for `mixedPage`: the failed record's placeholder is
literally untouched, the two successful records are rewritten. -/
def mixedContent : String :=
  "A ![Image one](./doc_images/doc_page1_img1.png) B ![two](two) C ![Image three](./doc_images/doc_page1_img3.png)"

/-- C5: per-image failures are isolated.  Page processing always returns the
page's Markdown together with exactly the per-record materialization results
(no failure aborts the page); a record that fails to materialize contributes
nothing while the remaining records are processed under their own indices;
the rewriting only consumes the successfully materialized records.  On the
concrete three-image page whose middle record has malformed base64, the
other two are written and rewritten and the failed placeholder
`![two](two)` survives literally. -/
theorem c5_per_image_isolation :
    (∀ (b d : String) (i : Nat) (page : Page),
      processPage b d i page =
        (rewriteMarkdown (imageDict (materializeImages b d i 0 page.images))
            (page.markdown.getD ""),
          materializeImages b d i 0 page.images)) ∧
    (∀ (b d : String) (i k : Nat) (img : ImageRecord) (rest : List ImageRecord),
      materializeImage b d i k img = none →
      materializeImages b d i k (img :: rest) = materializeImages b d i (k + 1) rest) ∧
    (processOcrResponse mixedResponse "doc" =
      ⟨mixedContent,
        [⟨"one", 0, 0, "doc_images/doc_page1_img1.png",
          "./doc_images/doc_page1_img1.png", [65]⟩,
         ⟨"three", 0, 2, "doc_images/doc_page1_img3.png",
          "./doc_images/doc_page1_img3.png", [65, 66]⟩], true⟩ ∧
      occursIn "![two](two)".data mixedContent.data = true) := by
  refine ⟨?_, ?_, by decide, by decide⟩
  · intro b d i page
    rcases page with ⟨md?, imgs⟩
    rcases imgs with _ | ⟨img, rest⟩
    · simp [processPage, materializeImages, imageDict, rewriteMarkdown]
    · simp [processPage]
  · intro b d i k img rest h
    simp [materializeImages, h]

/-- C5 (witness): the failed middle record of `mixedPage` is skipped while
the rest of the list is still processed under shifted-by-one indices. -/
theorem c5_per_image_isolation_witness :
    materializeImages "doc" "doc_images" 0 1
        [⟨some "two", some "QQ", none, none, none, none⟩,
         ⟨some "three", some "QUI=", none, none, none, none⟩] =
      materializeImages "doc" "doc_images" 0 2
        [⟨some "three", some "QUI=", none, none, none, none⟩] :=
  c5_per_image_isolation.2.1 "doc" "doc_images" 0 1
    ⟨some "two", some "QQ", none, none, none, none⟩
    [⟨some "three", some "QUI=", none, none, none, none⟩] (by decide)

/-- C6: the assembled document is the per-page rewritten Markdown joined in
page order with exactly `"\n\n"` between consecutive pages; a page with a
missing `markdown` key contributes the empty string (the page slot is
preserved, never omitted); and the text persisted to the `.md` file is the
leading/trailing-whitespace-stripped concatenation. -/
theorem c6_page_assembly (r : ResponseDict) (b imageDir : String) (fs : FS) (i : Nat)
    (imgs : List ImageRecord) :
    (processOcrResponse r b).content =
      String.intercalate "\n\n"
        ((r.pages.getD []).mapIdx (fun k p => (processPage b (b ++ "_images") k p).1)) ∧
    (processPages b imageDir i (r.pages.getD [])).length = (r.pages.getD []).length ∧
    processPage b imageDir i ⟨none, imgs⟩ = processPage b imageDir i ⟨some "", imgs⟩ ∧
    processDocument [] fs r b =
      (fsWrite (fsWrite (runOcrResponse fs r b).1 (b ++ ".md")
          (FileData.text (pyStrip (processOcrResponse r b).content)))
        (b ++ "_full.json") (FileData.jsonOf r), true) := by
  refine ⟨?_, processPages_length b imageDir (r.pages.getD []) i, ?_, ?_⟩
  · rw [processOcrResponse]
    simp only
    rw [processPages_map_fst b (b ++ "_images") (r.pages.getD []) 0]
    simp
  · simp [processPage]
  · simp [processDocument]
    rfl

/-- C8: every materialized image file is placed at
`{image_dir}/{base}_page{N}_img{M}.{fmt}` with 1-based page number
`N = page_idx + 1` and image number `M = img_idx + 1`, the format defaulting
to `"png"` when the record carries none; and within a fixed document the
naming is collision-free: the filename determines the (page, index) pair. -/
theorem c8_image_naming :
    (∀ (b d : String) (p k : Nat) (img : ImageRecord) (m : MaterializedImage),
      materializeImage b d p k img = some m →
      m.fsPath = pathJoin d (imageFilename b (p + 1) (k + 1) (img.format.getD "png"))) ∧
    (∀ (b f f' : String) (p i p' i' : Nat),
      imageFilename b p i f = imageFilename b p' i' f' → p = p' ∧ i = i') :=
  ⟨fun b d p k img m h => (materializeImage_some b d p k img m h).2.2,
   fun b f f' p i p' i' h => imageFilename_inj b f f' p i p' i' h⟩

/-- C8 (witness): the naming equation on a concrete record, and filename
injectivity instantiated at an identical pair of names. -/
theorem c8_image_naming_witness :
    (⟨"abc", 0, 0, "doc_images/doc_page1_img1.png",
        "./doc_images/doc_page1_img1.png", [65, 66, 67]⟩ : MaterializedImage).fsPath =
      pathJoin "doc_images" (imageFilename "doc" (0 + 1) (0 + 1)
        ((⟨some "abc", some "QUJD", none, none, none, none⟩ : ImageRecord).format.getD "png")) ∧
    ((1 : Nat) = 1 ∧ (2 : Nat) = 2) :=
  ⟨c8_image_naming.1 "doc" "doc_images" 0 0 ⟨some "abc", some "QUJD", none, none, none, none⟩
      ⟨"abc", 0, 0, "doc_images/doc_page1_img1.png",
        "./doc_images/doc_page1_img1.png", [65, 66, 67]⟩ (by decide),
   c8_image_naming.2 "doc" "png" "png" 1 2 1 2 rfl⟩

/-- C10: image indices are positional over the page's full `images`
sequence — a produced record's `imgIdx` is its own 0-based position in the
list (counted from the loop start), even when earlier records were skipped —
and all file paths written for one document are pairwise distinct. -/
theorem c10_positional_collision_free :
    (∀ (b d : String) (p k : Nat) (imgs : List ImageRecord) (m : MaterializedImage),
      m ∈ materializeImages b d p k imgs →
      k ≤ m.imgIdx ∧ ∃ img, imgs[m.imgIdx - k]? = some img ∧
        materializeImage b d p m.imgIdx img = some m) ∧
    (∀ (r : ResponseDict) (b : String),
      ((processOcrResponse r b).writes).Pairwise (fun m m' => m.fsPath ≠ m'.fsPath)) := by
  refine ⟨fun b d p k imgs => mem_materializeImages b d p imgs k, ?_⟩
  intro r b
  show ((((processPages b (b ++ "_images") 0 (r.pages.getD [])).map
    (fun pr => pr.2)).flatten)).Pairwise _
  refine List.Pairwise.imp_of_mem ?_
    (pagesWrites_pairwise b (b ++ "_images") (r.pages.getD []) 0)
  intro m m' hm hm' hkey heq
  obtain ⟨fmt, hf⟩ := mem_pagesWrites_fsPath b (b ++ "_images") (r.pages.getD []) 0 m hm
  obtain ⟨fmt', hf'⟩ := mem_pagesWrites_fsPath b (b ++ "_images") (r.pages.getD []) 0 m' hm'
  rw [hf, hf'] at heq
  obtain ⟨h1, h2⟩ := imagePath_inj b fmt fmt'
    (m.pageIdx + 1) (m.imgIdx + 1) (m'.pageIdx + 1) (m'.imgIdx + 1) heq
  rcases hkey with hk | hk <;> omega

/-- C10 (witness): in the three-record page whose middle record fails, the
record at 0-based position 2 is still written under index 2 (suffix
`img3`). -/
theorem c10_positional_collision_free_witness :
    (0 : Nat) ≤ 2 ∧ ∃ img, mixedPage.images[2 - 0]? = some img ∧
      materializeImage "doc" "doc_images" 0 2 img =
        some ⟨"three", 0, 2, "doc_images/doc_page1_img3.png",
          "./doc_images/doc_page1_img3.png", [65, 66]⟩ :=
  c10_positional_collision_free.1 "doc" "doc_images" 0 0 mixedPage.images
    ⟨"three", 0, 2, "doc_images/doc_page1_img3.png",
      "./doc_images/doc_page1_img3.png", [65, 66]⟩ (by decide)

end MistralOcr
